import Mathlib

/-!
Verification of the Solace page-animation script (src/js/main.js).

The script does three things:
1. On DOMContentLoaded, it staggers the reveal of the hero elements:
   element at index i gets setTimeout(add 'visible', i * 200).
2. It registers every `.scroll-fade` element with an IntersectionObserver;
   the callback `handleIntersection`, on an intersecting entry, reads the
   element's `data-delay` attribute: if present it schedules
   setTimeout(add 'visible', parseInt(delay) * 300), otherwise it adds
   'visible' synchronously; in both cases it unobserves the element.
3. It intercepts clicks on `a[href^="#"]` links: preventDefault always,
   then `document.querySelector(href)` and, if an element is found,
   `scrollIntoView({behavior:'smooth'})`.

We embed this as a small event-loop state machine: the state carries the
set of elements bearing the 'visible' class, the set of observed elements,
the pending one-shot timers (absolute fire time, target element), and the
current clock.  Events are host deliveries of intersection-entry batches
and clock advances (which fire every due timer).  Host APIs used by the
script are modelled with their standard semantics: JavaScript `parseInt`
(whitespace skip, optional sign, optional 0x prefix, longest digit prefix,
NaN when no digits, modelled as `Option Int` with `none` for NaN),
`setTimeout`'s timeout clamping (NaN and negative timeouts become 0), and
`querySelector`, which throws a SyntaxError when its argument is not a
valid CSS selector (relevant because the script passes the raw href, so a
link with href="#" makes the click handler throw).
-/

namespace Solace

/-! ## Host model: JavaScript parseInt -/

/-- Whitespace skipped by `parseInt` (the common ASCII cases plus NBSP). -/
def isJsWhitespace (c : Char) : Bool :=
  c = ' ' || c = '\t' || c = '\n' || c = '\r' || c = '\x0b' || c = '\x0c' || c = '\xa0'

def digitVal (c : Char) : Nat := c.toNat - 48

def parseDecDigits (cs : List Char) : Option Nat :=
  let ds := cs.takeWhile Char.isDigit
  if ds.isEmpty then none
  else some (ds.foldl (fun a c => a * 10 + digitVal c) 0)

def isHexDigit (c : Char) : Bool :=
  c.isDigit || (('a' ≤ c) && (c ≤ 'f')) || (('A' ≤ c) && (c ≤ 'F'))

def hexVal (c : Char) : Nat :=
  if c.isDigit then c.toNat - 48
  else if ('a' ≤ c) && (c ≤ 'f') then c.toNat - 87
  else c.toNat - 55

def parseHexDigits (cs : List Char) : Option Nat :=
  let ds := cs.takeWhile isHexDigit
  if ds.isEmpty then none
  else some (ds.foldl (fun a c => a * 16 + hexVal c) 0)

/-- Radix-10 `parseInt` body: a leading `0x`/`0X` switches to radix 16. -/
def parseUnsigned (cs : List Char) : Option Nat :=
  match cs with
  | '0' :: 'x' :: rest => parseHexDigits rest
  | '0' :: 'X' :: rest => parseHexDigits rest
  | _ => parseDecDigits cs

/-- JavaScript `parseInt(s)`; `none` stands for NaN. -/
def jsParseInt (s : String) : Option Int :=
  let cs := s.data.dropWhile isJsWhitespace
  match cs with
  | '-' :: rest => (parseUnsigned rest).map (fun n => -(n : Int))
  | '+' :: rest => (parseUnsigned rest).map (fun n => (n : Int))
  | _ => (parseUnsigned cs).map (fun n => (n : Int))

/-- `setTimeout` timeout conversion: NaN (`none`) becomes 0 and a negative
timeout is clamped to 0. -/
def timeoutDelay : Option Int → Nat
  | none => 0
  | some i => i.toNat

/-! ## The reveal-controller state machine -/

/-- One IntersectionObserverEntry as consumed by `handleIntersection`. -/
structure Entry where
  target : Nat
  isIntersecting : Bool
deriving DecidableEq

/-- The page state the script can affect.  `dataDelay` is the read-only
`data-delay` attribute of each element; `visible` lists the elements whose
classList contains 'visible'; `observed` is the observer's target list;
`timers` are the pending one-shot timeouts as (absolute fire time, element);
`now` is the clock. -/
structure SysState where
  dataDelay : Nat → Option String
  visible : List Nat
  observed : List Nat
  timers : List (Nat × Nat)
  now : Nat

/-- `classList.add` of a single token: a no-op when already present. -/
def addClass (v : List Nat) (e : Nat) : List Nat :=
  if e ∈ v then v else v ++ [e]

/-- The body of the `entries.forEach` in `handleIntersection`:
if `entry.isIntersecting`, read `data-delay`; when present, schedule
`setTimeout(add 'visible', parseInt(delay) * 300)`; when absent, add
'visible' immediately; then `observer.unobserve(element)`. -/
def handleEntry (st : SysState) (en : Entry) : SysState :=
  if en.isIntersecting then
    match st.dataDelay en.target with
    | some delay =>
        { st with
          timers := st.timers ++
            [(st.now + timeoutDelay ((jsParseInt delay).map (fun d => d * 300)), en.target)],
          observed := st.observed.erase en.target }
    | none =>
        { st with
          visible := addClass st.visible en.target,
          observed := st.observed.erase en.target }
  else st

/-- `handleIntersection(entries, observer)`: `entries.forEach(...)`. -/
def handleIntersection (entries : List Entry) (st : SysState) : SysState :=
  entries.foldl handleEntry st

/-- Fire every pending timer that is due at the current clock; each such
timer runs its `element.classList.add('visible')` callback and is removed. -/
def fireAll (st : SysState) : SysState :=
  { st with
    visible :=
      (st.timers.filter (fun p => decide (p.1 ≤ st.now))).foldl
        (fun v p => addClass v p.2) st.visible,
    timers := st.timers.filter (fun p => decide (st.now < p.1)) }

/-- Host events driving the script: delivery of an intersection-entry batch
to the observer callback, or the clock advancing to time `t` (firing every
timer that has become due). -/
inductive Event where
  | deliver (entries : List Entry)
  | advance (t : Nat)
deriving DecidableEq

def step (st : SysState) : Event → SysState
  | Event.deliver entries => handleIntersection entries st
  | Event.advance t => fireAll { st with now := t }

def run (st : SysState) (evs : List Event) : SysState :=
  evs.foldl step st

/-- Number of pending timers targeting element `e`. -/
def timersFor (st : SysState) (e : Nat) : Nat :=
  (st.timers.filter (fun p => decide (p.2 = e))).length

/-- Host behaviour of IntersectionObserver delivery and of the clock:
a delivered batch only contains currently observed targets, each target at
most once per batch, and the clock never goes backwards. -/
inductive WF : SysState → List Event → Prop where
  | nil (st : SysState) : WF st []
  | deliver {st : SysState} {entries : List Entry} {evs : List Event}
      (hobs : ∀ en ∈ entries, en.target ∈ st.observed)
      (hdist : (entries.map Entry.target).Nodup)
      (htail : WF (step st (Event.deliver entries)) evs) :
      WF st (Event.deliver entries :: evs)
  | advance {st : SysState} {t : Nat} {evs : List Event}
      (hmono : st.now ≤ t)
      (htail : WF (step st (Event.advance t)) evs) :
      WF st (Event.advance t :: evs)

/-- The state right after registration (`scrollObserver.observe` loop):
nothing revealed yet, no timers pending, observed targets pairwise
distinct. -/
def GoodInit (st : SysState) : Prop :=
  st.visible = [] ∧ st.timers = [] ∧ st.observed.Nodup

/-! ## Load-time hero stagger -/

/-- One iteration of the hero `forEach` body, at (index, element) `p`:
`setTimeout(() => element.classList.add('visible'), index * 200)`. -/
def heroStep (s : SysState) (p : Nat × Nat) : SysState :=
  { s with timers := s.timers ++ [(s.now + p.1 * 200, p.2)] }

/-- The hero DOMContentLoaded handler:
`heroElements.forEach((element, index) => setTimeout(add 'visible', index * 200))`. -/
def heroRegister (st : SysState) (hero : List Nat) : SysState :=
  hero.enum.foldl heroStep st

/-! ## Smooth-scroll click handler -/

/-- Start character of a CSS identifier (escapes omitted). -/
def isIdentStart (c : Char) : Bool :=
  c.isAlpha || c = '_' || 128 ≤ c.toNat

def isIdentChar (c : Char) : Bool :=
  isIdentStart c || c.isDigit || c = '-'

/-- CSS `<ident>` (escape sequences omitted). -/
def isCssIdent : List Char → Bool
  | [] => false
  | '-' :: [] => false
  | '-' :: '-' :: rest => rest.all isIdentChar
  | '-' :: c :: rest => isIdentStart c && rest.all isIdentChar
  | c :: rest => isIdentStart c && rest.all isIdentChar

/-- Validity of the selector string the script passes to `querySelector`
(the raw href): a '#' followed by a CSS identifier.  In particular "#"
alone, or "#1", is not a valid selector and makes `querySelector` throw. -/
def validIdSelector (s : String) : Bool :=
  match s.data with
  | '#' :: rest => isCssIdent rest
  | _ => false

/-- The document as seen by the click handler: id → element lookup. -/
structure PageDoc where
  byId : String → Option Nat

/-- Host `document.querySelector` restricted to the ID selectors the
script can produce: throws (`Except.error`) on an invalid selector,
otherwise returns the matching element, if any. -/
def querySelector (doc : PageDoc) (sel : String) : Except Unit (Option Nat) :=
  if validIdSelector sel then Except.ok (doc.byId (sel.drop 1)) else Except.error ()

/-- Observable outcome of one click on an `a[href^="#"]` link:
whether preventDefault ran, the `scrollIntoView` call performed (target
element paired with its behavior:'smooth' flag), and whether the handler
threw. -/
structure ClickResult where
  defaultPrevented : Bool
  scrolled : Option (Nat × Bool)
  threw : Bool
deriving DecidableEq

/-- The click listener: `event.preventDefault()` first, then
`document.querySelector(this.getAttribute('href'))`, then, only if a
target was found, `targetSection.scrollIntoView({behavior:'smooth'})`.
An invalid selector makes `querySelector` throw after preventDefault. -/
def handleClick (doc : PageDoc) (href : String) : ClickResult :=
  match querySelector doc href with
  | Except.error _ => { defaultPrevented := true, scrolled := none, threw := true }
  | Except.ok none => { defaultPrevented := true, scrolled := none, threw := false }
  | Except.ok (some tgt) =>
      { defaultPrevented := true, scrolled := some (tgt, true), threw := false }

/-! ## Concrete instances used as witnesses -/

/-- Attribute map: element 0 carries data-delay="2", element 1 carries no
delay attribute. -/
def delayAttrs : Nat → Option String := fun n => if n = 0 then some ("2") else none

/-- A freshly registered controller over elements 0 and 1. -/
def stScroll : SysState :=
  { dataDelay := delayAttrs, visible := [], observed := [0, 1], timers := [], now := 0 }

/-- Attribute map where the data-delay value does not parse as an integer. -/
def nanAttrs : Nat → Option String := fun _ => some ("abc")

def stNan : SysState :=
  { dataDelay := nanAttrs, visible := [], observed := [0], timers := [], now := 7 }

/-- A state where element 4 is already revealed. -/
def stVis : SysState :=
  { dataDelay := fun _ => none, visible := [4], observed := [], timers := [], now := 0 }

/-- The page state at DOMContentLoaded for the hero stagger. -/
def stHero : SysState :=
  { dataDelay := fun _ => none, visible := [], observed := [], timers := [], now := 0 }

/-- A document with no elements at all. -/
def docNone : PageDoc := ⟨fun _ => none⟩

/-- A document with an element (number 7) whose id is "main". -/
def docOne : PageDoc := ⟨fun s => if s = ("main") then some 7 else none⟩

/-- A document with an element (number 5) whose id is the digit "1" —
a legal HTML id that is not a legal CSS ID selector body. -/
def docDigits : PageDoc := ⟨fun s => if s = ("1") then some 5 else none⟩

/-! ## Basic lemmas about addClass, timers and fireAll -/

theorem mem_addClass {v : List Nat} {x e : Nat} :
    e ∈ addClass v x ↔ e ∈ v ∨ e = x := by
  by_cases h : x ∈ v
  · simp only [addClass, if_pos h]
    exact ⟨Or.inl, fun hc => hc.elim id (fun he => he ▸ h)⟩
  · simp [addClass, if_neg h]

theorem nodup_addClass {v : List Nat} {x : Nat} (h : v.Nodup) : (addClass v x).Nodup := by
  by_cases hx : x ∈ v
  · simpa [addClass, if_pos hx] using h
  · simp [addClass, if_neg hx, List.nodup_append, h, hx]

theorem mem_foldl_addClass (l : List (Nat × Nat)) (v : List Nat) (e : Nat) :
    e ∈ l.foldl (fun v p => addClass v p.2) v ↔ e ∈ v ∨ e ∈ l.map Prod.snd := by
  induction l generalizing v with
  | nil => simp
  | cons p l ih =>
      simp [List.foldl_cons, ih, mem_addClass, List.map_cons, List.mem_cons, or_assoc]

theorem nodup_foldl_addClass (l : List (Nat × Nat)) (v : List Nat) (h : v.Nodup) :
    (l.foldl (fun v p => addClass v p.2) v).Nodup := by
  induction l generalizing v with
  | nil => exact h
  | cons p l ih => exact ih _ (nodup_addClass h)

theorem timersFor_eq_zero_iff (st : SysState) (e : Nat) :
    timersFor st e = 0 ↔ ∀ p ∈ st.timers, p.2 ≠ e := by
  simp [timersFor, List.length_eq_zero, List.filter_eq_nil_iff]

theorem mem_fireAll_visible (st : SysState) (e : Nat) :
    e ∈ (fireAll st).visible ↔
      e ∈ st.visible ∨ ∃ p ∈ st.timers, p.1 ≤ st.now ∧ p.2 = e := by
  simp only [fireAll, mem_foldl_addClass, List.mem_map, List.mem_filter,
    decide_eq_true_eq]
  constructor
  · rintro (h | ⟨p, ⟨hp, hd⟩, rfl⟩)
    · exact Or.inl h
    · exact Or.inr ⟨p, hp, hd, rfl⟩
  · rintro (h | ⟨p, hp, hd, rfl⟩)
    · exact Or.inl h
    · exact Or.inr ⟨p, ⟨hp, hd⟩, rfl⟩

theorem fireAll_timers_subset (st : SysState) :
    ∀ p ∈ (fireAll st).timers, p ∈ st.timers := by
  intro p hp
  exact List.mem_of_mem_filter hp

theorem fireAll_observed (st : SysState) : (fireAll st).observed = st.observed := rfl

theorem fireAll_now (st : SysState) : (fireAll st).now = st.now := rfl

/-! ## Case equations for handleEntry -/

theorem handleEntry_false (st : SysState) (en : Entry) (hb : en.isIntersecting = false) :
    handleEntry st en = st := by
  simp [handleEntry, hb]

theorem handleEntry_some (st : SysState) (en : Entry) (hb : en.isIntersecting = true)
    (s : String) (hd : st.dataDelay en.target = some s) :
    handleEntry st en =
      { st with
        timers := st.timers ++
          [(st.now + timeoutDelay ((jsParseInt s).map (fun d => d * 300)), en.target)],
        observed := st.observed.erase en.target } := by
  simp [handleEntry, hb, hd]

theorem handleEntry_none (st : SysState) (en : Entry) (hb : en.isIntersecting = true)
    (hd : st.dataDelay en.target = none) :
    handleEntry st en =
      { st with
        visible := addClass st.visible en.target,
        observed := st.observed.erase en.target } := by
  simp [handleEntry, hb, hd]

/-! ## Frame lemmas: how one entry affects a fixed element -/

theorem handleEntry_now (st : SysState) (en : Entry) : (handleEntry st en).now = st.now := by
  cases hb : en.isIntersecting with
  | false => rw [handleEntry_false st en hb]
  | true =>
      cases hd : st.dataDelay en.target with
      | some s => rw [handleEntry_some st en hb s hd]
      | none => rw [handleEntry_none st en hb hd]

theorem handleEntry_not_observed (st : SysState) (en : Entry) (e : Nat)
    (h : e ∉ st.observed) : e ∉ (handleEntry st en).observed := by
  cases hb : en.isIntersecting with
  | false => rw [handleEntry_false st en hb]; exact h
  | true =>
      cases hd : st.dataDelay en.target with
      | some s =>
          rw [handleEntry_some st en hb s hd]
          exact fun hc => h (List.mem_of_mem_erase hc)
      | none =>
          rw [handleEntry_none st en hb hd]
          exact fun hc => h (List.mem_of_mem_erase hc)

theorem handleEntry_obs_of_ne (st : SysState) (en : Entry) (x : Nat)
    (hne : x ≠ en.target) (hx : x ∈ st.observed) : x ∈ (handleEntry st en).observed := by
  cases hb : en.isIntersecting with
  | false => rw [handleEntry_false st en hb]; exact hx
  | true =>
      cases hd : st.dataDelay en.target with
      | some s =>
          rw [handleEntry_some st en hb s hd]
          exact (List.mem_erase_of_ne hne).mpr hx
      | none =>
          rw [handleEntry_none st en hb hd]
          exact (List.mem_erase_of_ne hne).mpr hx

theorem handleEntry_vis_frame (st : SysState) (en : Entry) (e : Nat)
    (h : en.target ≠ e ∨ en.isIntersecting = false) :
    (e ∈ (handleEntry st en).visible ↔ e ∈ st.visible) := by
  cases hb : en.isIntersecting with
  | false => rw [handleEntry_false st en hb]
  | true =>
      have hne : en.target ≠ e := by
        rcases h with h | h
        · exact h
        · simp [hb] at h
      cases hd : st.dataDelay en.target with
      | some s => rw [handleEntry_some st en hb s hd]
      | none =>
          rw [handleEntry_none st en hb hd]
          simp only [mem_addClass]
          constructor
          · rintro (h1 | rfl)
            · exact h1
            · exact absurd rfl hne
          · exact Or.inl

theorem handleEntry_timers_frame (st : SysState) (en : Entry) (e : Nat)
    (h : en.target ≠ e ∨ en.isIntersecting = false) :
    ∀ p ∈ (handleEntry st en).timers, p.2 = e → p ∈ st.timers := by
  cases hb : en.isIntersecting with
  | false => rw [handleEntry_false st en hb]; exact fun p hp _ => hp
  | true =>
      have hne : en.target ≠ e := by
        rcases h with h | h
        · exact h
        · simp [hb] at h
      cases hd : st.dataDelay en.target with
      | some s =>
          rw [handleEntry_some st en hb s hd]
          intro p hp hpe
          rcases List.mem_append.mp hp with h1 | h1
          · exact h1
          · exfalso
            simp only [List.mem_singleton] at h1
            exact hne (by simpa [h1] using hpe)
      | none =>
          rw [handleEntry_none st en hb hd]
          exact fun p hp _ => hp

theorem hi_frame (entries : List Entry) (st : SysState) (e : Nat)
    (h : ∀ en ∈ entries, en.target ≠ e ∨ en.isIntersecting = false) :
    (e ∈ (handleIntersection entries st).visible ↔ e ∈ st.visible) ∧
    (∀ p ∈ (handleIntersection entries st).timers, p.2 = e → p ∈ st.timers) ∧
    (e ∉ st.observed → e ∉ (handleIntersection entries st).observed) ∧
    (handleIntersection entries st).now = st.now := by
  induction entries generalizing st with
  | nil => exact ⟨Iff.rfl, fun p hp _ => hp, fun h => h, rfl⟩
  | cons en rest ih =>
      have hhead := h en (List.mem_cons_self en rest)
      have htail : ∀ en' ∈ rest, en'.target ≠ e ∨ en'.isIntersecting = false :=
        fun en' hen' => h en' (List.mem_cons_of_mem en hen')
      have hstep : handleIntersection (en :: rest) st =
          handleIntersection rest (handleEntry st en) := rfl
      rw [hstep]
      obtain ⟨iv, it, io, inow⟩ := ih (handleEntry st en) htail
      refine ⟨iv.trans (handleEntry_vis_frame st en e hhead), ?_, ?_, ?_⟩
      · intro p hp hpe
        exact handleEntry_timers_frame st en e hhead p (it p hp hpe) hpe
      · intro hobs
        exact io (handleEntry_not_observed st en e hobs)
      · exact inow.trans (handleEntry_now st en)

/-! ## Temporal lower bound: an unobserved element with only late timers
cannot be revealed before its timer is due -/

/-- Element `e` is out of the observer's hands and can only become visible
at time `T` or later: if already visible the clock has passed `T`, it is
not observed (so no further entries are ever delivered for it), and every
pending timer for it fires no earlier than `T`. -/
def Blocked (e T : Nat) (st : SysState) : Prop :=
  (e ∈ st.visible → T ≤ st.now) ∧ e ∉ st.observed ∧
  ∀ p ∈ st.timers, p.2 = e → T ≤ p.1

theorem blocked_deliver (e T : Nat) (st : SysState) (entries : List Entry)
    (hb : Blocked e T st) (hobs : ∀ en ∈ entries, en.target ∈ st.observed) :
    Blocked e T (handleIntersection entries st) := by
  obtain ⟨h1, h2, h3⟩ := hb
  have hne : ∀ en ∈ entries, en.target ≠ e ∨ en.isIntersecting = false :=
    fun en hen => Or.inl (fun hc => h2 (hc ▸ hobs en hen))
  obtain ⟨iv, it, io, inow⟩ := hi_frame entries st e hne
  exact ⟨fun hvis => inow ▸ h1 (iv.mp hvis), io h2,
    fun p hp hpe => h3 p (it p hp hpe) hpe⟩

theorem blocked_advance (e T : Nat) (st : SysState) (t : Nat) (hmono : st.now ≤ t)
    (hb : Blocked e T st) : Blocked e T (fireAll { st with now := t }) := by
  obtain ⟨h1, h2, h3⟩ := hb
  refine ⟨?_, h2, ?_⟩
  · intro hvis
    rcases (mem_fireAll_visible { st with now := t } e).mp hvis with h | ⟨p, hp, hdue, hpe⟩
    · exact le_trans (h1 h) hmono
    · exact le_trans (h3 p hp hpe) hdue
  · intro p hp hpe
    exact h3 p (fireAll_timers_subset { st with now := t } p hp) hpe

theorem blocked_run (e T : Nat) (evs : List Event) :
    ∀ st : SysState, Blocked e T st → WF st evs → Blocked e T (run st evs) := by
  induction evs with
  | nil => exact fun st hb _ => hb
  | cons ev rest ih =>
      intro st hb hwf
      cases hwf with
      | deliver hobs hdist htail => exact ih _ (blocked_deliver e T st _ hb hobs) htail
      | advance hmono htail => exact ih _ (blocked_advance e T st _ hmono hb) htail

/-! ## Global invariant: distinct observation, one-shot timers -/

/-- Invariant maintained by the controller from registration onward: the
observed list and the visible class list are duplicate-free, each element
ever has at most one pending reveal timer, and an element still under
observation has no pending timer and is not yet revealed. -/
def Inv (st : SysState) : Prop :=
  st.observed.Nodup ∧ st.visible.Nodup ∧
  ∀ e, timersFor st e ≤ 1 ∧ (e ∈ st.observed → timersFor st e = 0 ∧ e ∉ st.visible)

theorem goodInit_inv (st : SysState) (h : GoodInit st) : Inv st := by
  obtain ⟨hv, ht, ho⟩ := h
  refine ⟨ho, by simp [hv], fun e => ?_⟩
  simp [timersFor, ht, hv]

theorem filterCount_append_single (T : List (Nat × Nat)) (q : Nat × Nat) (e : Nat) :
    ((T ++ [q]).filter (fun p => decide (p.2 = e))).length =
      (T.filter (fun p => decide (p.2 = e))).length + (if q.2 = e then 1 else 0) := by
  simp only [List.filter_append, List.length_append]
  congr 1
  by_cases hq : q.2 = e <;> simp [hq]

theorem inv_handleEntry (st : SysState) (en : Entry) (hInv : Inv st)
    (ht : en.isIntersecting = true → en.target ∈ st.observed) :
    Inv (handleEntry st en) := by
  obtain ⟨hod, hvd, hall⟩ := hInv
  cases hb : en.isIntersecting with
  | false => rw [handleEntry_false st en hb]; exact ⟨hod, hvd, hall⟩
  | true =>
      have htgt := ht hb
      have htgt0 : timersFor st en.target = 0 := ((hall en.target).2 htgt).1
      have htgtv : en.target ∉ st.visible := ((hall en.target).2 htgt).2
      cases hd : st.dataDelay en.target with
      | some s =>
          rw [handleEntry_some st en hb s hd]
          refine ⟨hod.erase en.target, hvd, fun e => ?_⟩
          have hcnt : timersFor
              { st with
                timers := st.timers ++
                  [(st.now + timeoutDelay ((jsParseInt s).map (fun d => d * 300)), en.target)],
                observed := st.observed.erase en.target } e =
              timersFor st e + (if en.target = e then 1 else 0) :=
            filterCount_append_single st.timers
              (st.now + timeoutDelay ((jsParseInt s).map (fun d => d * 300)), en.target) e
          constructor
          · rw [hcnt]
            by_cases he : en.target = e
            · subst he
              simp [htgt0]
            · have := (hall e).1
              simpa [he] using this
          · intro hmem
            have hne : e ≠ en.target := ((List.Nodup.mem_erase_iff hod).mp hmem).1
            have hmem' : e ∈ st.observed := ((List.Nodup.mem_erase_iff hod).mp hmem).2
            obtain ⟨hz, hnv⟩ := (hall e).2 hmem'
            constructor
            · rw [hcnt, hz]
              have hne' : ¬en.target = e := fun hc => hne hc.symm
              simp [hne']
            · exact hnv
      | none =>
          rw [handleEntry_none st en hb hd]
          refine ⟨hod.erase en.target, nodup_addClass hvd, fun e => ?_⟩
          refine ⟨(hall e).1, ?_⟩
          intro hmem
          have hne : e ≠ en.target := ((List.Nodup.mem_erase_iff hod).mp hmem).1
          have hmem' : e ∈ st.observed := ((List.Nodup.mem_erase_iff hod).mp hmem).2
          obtain ⟨hz, hnv⟩ := (hall e).2 hmem'
          refine ⟨hz, ?_⟩
          intro hc
          rcases mem_addClass.mp hc with hc | hc
          · exact hnv hc
          · exact hne hc

theorem inv_handleIntersection (entries : List Entry) (st : SysState) (hInv : Inv st)
    (hobs : ∀ en ∈ entries, en.target ∈ st.observed)
    (hdist : (entries.map Entry.target).Nodup) :
    Inv (handleIntersection entries st) := by
  induction entries generalizing st with
  | nil => exact hInv
  | cons en rest ih =>
      have hInv' : Inv (handleEntry st en) :=
        inv_handleEntry st en hInv (fun _ => hobs en (List.mem_cons_self en rest))
      have hstep : handleIntersection (en :: rest) st =
          handleIntersection rest (handleEntry st en) := rfl
      rw [hstep]
      have hhd : en.target ∉ rest.map Entry.target := (List.nodup_cons.mp hdist).1
      refine ih (handleEntry st en) hInv' ?_ (List.nodup_cons.mp hdist).2
      intro en' hen'
      have hne : en'.target ≠ en.target := by
        intro hc
        exact hhd (hc ▸ List.mem_map_of_mem Entry.target hen')
      exact handleEntry_obs_of_ne st en en'.target hne (hobs en' (List.mem_cons_of_mem en hen'))

theorem inv_fireAll (st : SysState) (hInv : Inv st) : Inv (fireAll st) := by
  obtain ⟨hod, hvd, hall⟩ := hInv
  refine ⟨hod, nodup_foldl_addClass _ _ hvd, fun e => ?_⟩
  have hsub : timersFor (fireAll st) e ≤ timersFor st e := by
    have h1 : List.Sublist ((fireAll st).timers.filter (fun p => decide (p.2 = e)))
        (st.timers.filter (fun p => decide (p.2 = e))) :=
      List.Sublist.filter _ (List.filter_sublist st.timers)
    exact h1.length_le
  refine ⟨le_trans hsub (hall e).1, ?_⟩
  intro hmem
  obtain ⟨hz, hnv⟩ := (hall e).2 hmem
  refine ⟨Nat.le_zero.mp (hz ▸ hsub), ?_⟩
  intro hc
  rcases (mem_fireAll_visible st e).mp hc with hc | ⟨p, hp, _, hpe⟩
  · exact hnv hc
  · exact (timersFor_eq_zero_iff st e).mp hz p hp hpe

theorem inv_now_update (st : SysState) (t : Nat) (hInv : Inv st) :
    Inv { st with now := t } := hInv

theorem inv_run (evs : List Event) :
    ∀ st : SysState, Inv st → WF st evs → Inv (run st evs) := by
  induction evs with
  | nil => exact fun st hInv _ => hInv
  | cons ev rest ih =>
      intro st hInv hwf
      cases hwf with
      | deliver hobs hdist htail =>
          exact ih _ (inv_handleIntersection _ st hInv hobs hdist) htail
      | advance hmono htail =>
          exact ih _ (inv_fireAll _ (inv_now_update st _ hInv)) htail

/-! ## Run and step helper lemmas -/

theorem run_cons (st : SysState) (ev : Event) (evs : List Event) :
    run st (ev :: evs) = run (step st ev) evs := rfl

theorem mem_step_advance (st : SysState) (t : Nat) (e : Nat) :
    e ∈ (step st (Event.advance t)).visible ↔
      e ∈ st.visible ∨ ∃ p ∈ st.timers, p.1 ≤ t ∧ p.2 = e :=
  mem_fireAll_visible { st with now := t } e

theorem handleEntry_vis_mono (st : SysState) (en : Entry) (e : Nat)
    (h : e ∈ st.visible) : e ∈ (handleEntry st en).visible := by
  cases hb : en.isIntersecting with
  | false => rw [handleEntry_false st en hb]; exact h
  | true =>
      cases hd : st.dataDelay en.target with
      | some s => rw [handleEntry_some st en hb s hd]; exact h
      | none =>
          rw [handleEntry_none st en hb hd]
          exact mem_addClass.mpr (Or.inl h)

theorem handleEntry_vis_nodup (st : SysState) (en : Entry)
    (h : st.visible.Nodup) : (handleEntry st en).visible.Nodup := by
  cases hb : en.isIntersecting with
  | false => rw [handleEntry_false st en hb]; exact h
  | true =>
      cases hd : st.dataDelay en.target with
      | some s => rw [handleEntry_some st en hb s hd]; exact h
      | none => rw [handleEntry_none st en hb hd]; exact nodup_addClass h

theorem step_vis_mono (st : SysState) (ev : Event) (e : Nat)
    (h : e ∈ st.visible) : e ∈ (step st ev).visible := by
  cases ev with
  | deliver entries =>
      show e ∈ (handleIntersection entries st).visible
      induction entries generalizing st with
      | nil => exact h
      | cons en rest ih => exact ih (handleEntry st en) (handleEntry_vis_mono st en e h)
  | advance t => exact (mem_step_advance st t e).mpr (Or.inl h)

theorem step_vis_nodup (st : SysState) (ev : Event)
    (h : st.visible.Nodup) : (step st ev).visible.Nodup := by
  cases ev with
  | deliver entries =>
      show (handleIntersection entries st).visible.Nodup
      induction entries generalizing st with
      | nil => exact h
      | cons en rest ih => exact ih (handleEntry st en) (handleEntry_vis_nodup st en h)
  | advance t => exact nodup_foldl_addClass _ _ h

theorem handleEntry_unobserve_self (st : SysState) (e : Nat) (hod : st.observed.Nodup) :
    e ∉ (handleEntry st ⟨e, true⟩).observed := by
  cases hd : st.dataDelay e with
  | some s =>
      rw [handleEntry_some st ⟨e, true⟩ rfl s hd]
      intro hc
      exact ((List.Nodup.mem_erase_iff hod).mp hc).1 rfl
  | none =>
      rw [handleEntry_none st ⟨e, true⟩ rfl hd]
      intro hc
      exact ((List.Nodup.mem_erase_iff hod).mp hc).1 rfl

/-! ## Hero stagger characterization -/

theorem heroStep_timers (s : SysState) (p : Nat × Nat) :
    (heroStep s p).timers = s.timers ++ [(s.now + p.1 * 200, p.2)] := rfl

theorem heroStep_visible (s : SysState) (p : Nat × Nat) :
    (heroStep s p).visible = s.visible := rfl

theorem heroStep_now (s : SysState) (p : Nat × Nat) : (heroStep s p).now = s.now := rfl

theorem heroFold_spec (l : List (Nat × Nat)) : ∀ st : SysState,
    (l.foldl heroStep st).timers = st.timers ++ l.map (fun p => (st.now + p.1 * 200, p.2)) ∧
    (l.foldl heroStep st).visible = st.visible ∧
    (l.foldl heroStep st).now = st.now := by
  induction l with
  | nil => exact fun st => ⟨(List.append_nil _).symm, rfl, rfl⟩
  | cons p l ih =>
      intro st
      obtain ⟨ht, hv, hn⟩ := ih (heroStep st p)
      rw [List.foldl_cons]
      refine ⟨?_, ?_, ?_⟩
      · rw [ht, heroStep_timers, heroStep_now, List.map_cons, List.append_assoc,
          List.singleton_append]
      · rw [hv, heroStep_visible]
      · rw [hn, heroStep_now]

theorem heroRegister_timers (st : SysState) (hero : List Nat) :
    (heroRegister st hero).timers =
      st.timers ++ hero.enum.map (fun p => (st.now + p.1 * 200, p.2)) :=
  (heroFold_spec hero.enum st).1

theorem heroRegister_visible (st : SysState) (hero : List Nat) :
    (heroRegister st hero).visible = st.visible :=
  (heroFold_spec hero.enum st).2.1

theorem heroRegister_now (st : SysState) (hero : List Nat) :
    (heroRegister st hero).now = st.now :=
  (heroFold_spec hero.enum st).2.2

/-! ## Claim theorems -/

/-- C1: For every watched element whose data-delay attribute is present with
value d, processing the first qualifying visibility event schedules the
reveal on a one-time timer of exactly d × 300 milliseconds from the current
time, and in any well-formed continuation the element is revealed no
earlier than d × 300 ms after that event. -/
theorem c1_delayed_reveal_lower_bound (st : SysState) (e : Nat) (s : String) (d : Int)
    (hattr : st.dataDelay e = some s) (hparse : jsParseInt s = some d) (hd : 0 ≤ d)
    (hnv : e ∉ st.visible) (hnt : ∀ p ∈ st.timers, p.2 ≠ e) (hod : st.observed.Nodup) :
    (handleEntry st ⟨e, true⟩).timers = st.timers ++ [(st.now + d.toNat * 300, e)] ∧
    e ∉ (handleEntry st ⟨e, true⟩).visible ∧
    ∀ evs, WF (handleEntry st ⟨e, true⟩) evs →
      e ∈ (run (handleEntry st ⟨e, true⟩) evs).visible →
      st.now + d.toNat * 300 ≤ (run (handleEntry st ⟨e, true⟩) evs).now := by
  have heq := handleEntry_some st ⟨e, true⟩ rfl s hattr
  have hdelay : timeoutDelay ((jsParseInt s).map (fun d => d * 300)) = d.toNat * 300 := by
    rw [hparse]
    show (d * 300).toNat = d.toNat * 300
    omega
  have hts : (handleEntry st ⟨e, true⟩).timers = st.timers ++ [(st.now + d.toNat * 300, e)] := by
    rw [heq]
    show st.timers ++ [(st.now + timeoutDelay ((jsParseInt s).map (fun d => d * 300)), e)] = _
    rw [hdelay]
  have hvs : (handleEntry st ⟨e, true⟩).visible = st.visible := by rw [heq]
  refine ⟨hts, by rw [hvs]; exact hnv, ?_⟩
  intro evs hwf hvis
  have hblocked : Blocked e (st.now + d.toNat * 300) (handleEntry st ⟨e, true⟩) := by
    refine ⟨?_, handleEntry_unobserve_self st e hod, ?_⟩
    · intro hc
      rw [hvs] at hc
      exact absurd hc hnv
    · intro p hp hpe
      rw [hts] at hp
      rcases List.mem_append.mp hp with h1 | h1
      · exact absurd hpe (hnt p h1)
      · rw [List.mem_singleton] at h1
        subst h1
        exact le_refl _
  exact (blocked_run e _ evs _ hblocked hwf).1 hvis

theorem c1_witness :
    stScroll.now + (2 : Int).toNat * 300 ≤
      (run (handleEntry stScroll ⟨0, true⟩) [Event.advance 600]).now :=
  (c1_delayed_reveal_lower_bound stScroll 0 ("2") 2 rfl (by decide) (by decide)
      (by decide) (by decide) (by decide)).2.2
    [Event.advance 600] (WF.advance (by decide) (WF.nil _)) (by decide)

/-- C2: From a well-formed initial registration, processing a qualifying
visibility event removes the element from observation, and along any
well-formed trace each element ever has at most one scheduled reveal timer
and the visible class list stays duplicate-free (no duplicate reveal, no
duplicate scheduling, even under rapid intersection toggling). -/
theorem c2_at_most_one_reveal (st0 : SysState) (evs : List Event) (e : Nat)
    (h0 : GoodInit st0) (hwf : WF st0 evs) :
    (e ∈ (run st0 evs).observed →
      e ∉ (handleEntry (run st0 evs) ⟨e, true⟩).observed) ∧
    timersFor (run st0 evs) e ≤ 1 ∧
    (run st0 evs).visible.Nodup := by
  obtain ⟨hod, hvd, hall⟩ := inv_run evs st0 (goodInit_inv st0 h0) hwf
  exact ⟨fun _ => handleEntry_unobserve_self (run st0 evs) e hod, (hall e).1, hvd⟩

theorem c2_witness :
    timersFor (run stScroll [Event.deliver [⟨0, true⟩]]) 0 ≤ 1 ∧
    (run stScroll [Event.deliver [⟨0, true⟩]]).visible.Nodup :=
  (c2_at_most_one_reveal stScroll [Event.deliver [⟨0, true⟩]] 0
    ⟨rfl, rfl, by decide⟩
    (WF.deliver (by decide) (by decide) (WF.nil _))).2

/-- C3: For every watched element with no data-delay attribute, processing a
qualifying visibility event adds the 'visible' class synchronously — in the
same tick (the clock is unchanged) and without creating any timer. -/
theorem c3_no_delay_synchronous_reveal (st : SysState) (e : Nat)
    (hattr : st.dataDelay e = none) :
    e ∈ (handleEntry st ⟨e, true⟩).visible ∧
    (handleEntry st ⟨e, true⟩).timers = st.timers ∧
    (handleEntry st ⟨e, true⟩).now = st.now := by
  rw [handleEntry_none st ⟨e, true⟩ rfl hattr]
  exact ⟨mem_addClass.mpr (Or.inr rfl), rfl, rfl⟩

theorem c3_witness :
    1 ∈ (handleEntry stScroll ⟨1, true⟩).visible ∧
    (handleEntry stScroll ⟨1, true⟩).timers = stScroll.timers ∧
    (handleEntry stScroll ⟨1, true⟩).now = stScroll.now :=
  c3_no_delay_synchronous_reveal stScroll 1 rfl

/-- C7: A scroll-watched element that never produces a qualifying visibility
event is never revealed: starting unrevealed and with no pending timer, if
no delivered entry for it is ever intersecting, the 'visible' class is
never added — there is no timeout or fallback path. -/
theorem c7_never_intersecting_never_revealed (st : SysState) (evs : List Event) (e : Nat)
    (hnv : e ∉ st.visible) (hnt : ∀ p ∈ st.timers, p.2 ≠ e)
    (hq : ∀ entries, Event.deliver entries ∈ evs →
      ∀ en ∈ entries, en.target = e → en.isIntersecting = false) :
    e ∉ (run st evs).visible := by
  induction evs generalizing st with
  | nil => exact hnv
  | cons ev rest ih =>
      rw [run_cons]
      cases ev with
      | deliver entries =>
          have hne : ∀ en ∈ entries, en.target ≠ e ∨ en.isIntersecting = false := by
            intro en hen
            by_cases hc : en.target = e
            · exact Or.inr (hq entries (List.mem_cons_self _ _) en hen hc)
            · exact Or.inl hc
          obtain ⟨iv, it, io, inow⟩ := hi_frame entries st e hne
          apply ih
          · exact fun hc => hnv (iv.mp hc)
          · exact fun p hp hpe => hnt p (it p hp hpe) hpe
          · exact fun entries' hm => hq entries' (List.mem_cons_of_mem _ hm)
      | advance t =>
          apply ih
          · intro hc
            rcases (mem_step_advance st t e).mp hc with hc | ⟨p, hp, _, hpe⟩
            · exact hnv hc
            · exact hnt p hp hpe
          · exact fun p hp hpe =>
              hnt p (fireAll_timers_subset { st with now := t } p hp) hpe
          · exact fun entries' hm => hq entries' (List.mem_cons_of_mem _ hm)

theorem c7_witness :
    0 ∉ (run stScroll [Event.deliver [⟨1, false⟩], Event.advance 100]).visible :=
  c7_never_intersecting_never_revealed stScroll
    [Event.deliver [⟨1, false⟩], Event.advance 100] 0 (by decide) (by decide)
    (by
      intro entries hm en hen htgt
      rcases List.mem_cons.mp hm with h1 | h1
      · injection h1 with h2
        subst h2
        rcases List.mem_cons.mp hen with h3 | h3
        · rw [h3]
        · exact absurd h3 (List.not_mem_nil en)
      · rcases List.mem_cons.mp h1 with h2 | h2
        · exact Event.noConfusion h2
        · exact absurd h2 (List.not_mem_nil _))

/-- C8: A visibility notification with isIntersecting = false causes no
action at all: the state is unchanged, for any element and any state. -/
theorem c8_leaving_no_action (st : SysState) (e : Nat) :
    handleEntry st ⟨e, false⟩ = st :=
  handleEntry_false st ⟨e, false⟩ rfl

/-- C9: The revealed state is irreversible and persistent: once an element
carries the 'visible' class it carries it after any further events, and the
visible class list never acquires duplicates (each element transitions to
revealed at most once). -/
theorem c9_visible_persistent (st : SysState) (evs : List Event) (e : Nat)
    (h : e ∈ st.visible) (hnd : st.visible.Nodup) :
    e ∈ (run st evs).visible ∧ (run st evs).visible.Nodup := by
  induction evs generalizing st with
  | nil => exact ⟨h, hnd⟩
  | cons ev rest ih =>
      rw [run_cons]
      exact ih (step st ev) (step_vis_mono st ev e h) (step_vis_nodup st ev hnd)

theorem c9_witness :
    4 ∈ (run stVis [Event.advance 3]).visible ∧ (run stVis [Event.advance 3]).visible.Nodup :=
  c9_visible_persistent stVis [Event.advance 3] 4 (by decide) (by decide)

/-- C10: A data-delay value that does not parse as an integer yields NaN,
the scheduled timeout is treated as zero delay, and the element is still
revealed at the next timer tick rather than failing or staying
unrevealed. -/
theorem c10_nan_delay_timer (st : SysState) (e : Nat) (s : String)
    (hattr : st.dataDelay e = some s) (hparse : jsParseInt s = none) :
    (handleEntry st ⟨e, true⟩).timers = st.timers ++ [(st.now, e)] ∧
    e ∈ (step (handleEntry st ⟨e, true⟩) (Event.advance st.now)).visible := by
  have heq := handleEntry_some st ⟨e, true⟩ rfl s hattr
  have hts : (handleEntry st ⟨e, true⟩).timers = st.timers ++ [(st.now, e)] := by
    rw [heq]
    show st.timers ++ [(st.now + timeoutDelay ((jsParseInt s).map (fun d => d * 300)), e)] = _
    rw [hparse]
    show st.timers ++ [(st.now + 0, e)] = _
    rw [Nat.add_zero]
  refine ⟨hts, ?_⟩
  apply (mem_step_advance _ _ _).mpr
  refine Or.inr ⟨(st.now, e), ?_, le_refl _, rfl⟩
  rw [hts]
  exact List.mem_append_right _ (List.mem_singleton_self _)

theorem c10_witness :
    (handleEntry stNan ⟨0, true⟩).timers = stNan.timers ++ [(stNan.now, 0)] ∧
    0 ∈ (step (handleEntry stNan ⟨0, true⟩) (Event.advance stNan.now)).visible :=
  c10_nan_delay_timer stNan 0 ("abc") rfl (by decide)

/-- C4: At page-ready, the hero handler schedules element i of the n hero
elements on a timer of exactly i × 200 ms after page-ready, unconditionally
and with no visibility check, and element i is revealed exactly when the
clock passes i × 200 ms past page-ready. -/
theorem c4_hero_stagger (st : SysState) (hero : List Nat) (hnd : hero.Nodup)
    (hv : st.visible = []) (ht : st.timers = []) (i : Nat) (hi : i < hero.length) (t : Nat) :
    (heroRegister st hero).timers =
      hero.enum.map (fun p => (st.now + p.1 * 200, p.2)) ∧
    (hero[i] ∈ (step (heroRegister st hero) (Event.advance t)).visible ↔
      st.now + i * 200 ≤ t) := by
  have htimers : (heroRegister st hero).timers =
      hero.enum.map (fun p => (st.now + p.1 * 200, p.2)) := by
    have h1 := heroRegister_timers st hero
    rw [ht, List.nil_append] at h1
    exact h1
  refine ⟨htimers, ?_⟩
  rw [mem_step_advance]
  constructor
  · rintro (hc | ⟨p, hp, hdue, hpe⟩)
    · rw [heroRegister_visible, hv] at hc
      exact absurd hc (List.not_mem_nil _)
    · have hp' : p ∈ hero.enum.map (fun p => (st.now + p.1 * 200, p.2)) := by
        rw [← htimers]
        exact hp
      rcases List.mem_map.mp hp' with ⟨⟨j, x⟩, hq, hfq⟩
      have hjx := List.mk_mem_enum_iff_getElem?.mp hq
      have hj : j < hero.length := by
        by_contra hjc
        rw [List.getElem?_eq_none (Nat.le_of_not_lt hjc)] at hjx
        exact Option.noConfusion hjx
      have hx : hero[j] = x := by
        rw [List.getElem?_eq_getElem hj] at hjx
        exact Option.some_inj.mp hjx
      have hxi : x = hero[i] := by
        rw [← hfq] at hpe
        exact hpe
      have hji : j = i := by
        apply (hnd.getElem_inj_iff).mp
        rw [hx, hxi]
      have hdue' : st.now + j * 200 ≤ t := by
        rw [← hfq] at hdue
        exact hdue
      rw [hji] at hdue'
      exact hdue'
  · intro hle
    refine Or.inr ⟨(st.now + i * 200, hero[i]), ?_, hle, rfl⟩
    rw [htimers]
    exact List.mem_map.mpr
      ⟨(i, hero[i]), List.mk_mem_enum_iff_getElem?.mpr (List.getElem?_eq_getElem hi), rfl⟩

theorem c4_witness :
    (heroRegister stHero [3, 4, 5]).timers =
      ([3, 4, 5] : List Nat).enum.map (fun p => (stHero.now + p.1 * 200, p.2)) ∧
    (([3, 4, 5] : List Nat)[1] ∈
        (step (heroRegister stHero [3, 4, 5]) (Event.advance 200)).visible ↔
      stHero.now + 1 * 200 ≤ 200) :=
  c4_hero_stagger stHero [3, 4, 5] (by decide) rfl rfl 1 (by decide) 200

/-- Full characterization of one click, shared by the click-handler
claims. -/
theorem handleClick_spec (doc : PageDoc) (href : String) :
    (handleClick doc href).defaultPrevented = true ∧
    (validIdSelector href = true →
      (handleClick doc href).threw = false ∧
      (handleClick doc href).scrolled =
        (doc.byId (href.drop 1)).map (fun tgt => (tgt, true))) ∧
    (validIdSelector href = false →
      (handleClick doc href).scrolled = none ∧ (handleClick doc href).threw = true) := by
  unfold handleClick querySelector
  by_cases hvv : validIdSelector href = true
  · rw [if_pos hvv]
    cases hb : doc.byId (href.drop 1) with
    | none => exact ⟨rfl, fun _ => ⟨rfl, rfl⟩, fun hc => by simp [hvv] at hc⟩
    | some tgt => exact ⟨rfl, fun _ => ⟨rfl, rfl⟩, fun hc => by simp [hvv] at hc⟩
  · rw [if_neg hvv]
    refine ⟨rfl, fun hc => absurd hc hvv, fun _ => ⟨rfl, rfl⟩⟩

/-- C5 (amended): Every click on an in-page anchor prevents default
navigation.  When the href is a valid ID selector, a smooth scroll to the
matching element is triggered exactly when one exists, and otherwise the
handler is a silent no-op.  When the href is not a valid CSS selector
(e.g. href="#"), no scroll occurs but the handler throws from
querySelector (default navigation having already been prevented). -/
theorem c5_click_behaviour (doc : PageDoc) (href : String) :
    (handleClick doc href).defaultPrevented = true ∧
    (validIdSelector href = true →
      (handleClick doc href).threw = false ∧
      (handleClick doc href).scrolled =
        (doc.byId (href.drop 1)).map (fun tgt => (tgt, true))) ∧
    (validIdSelector href = false →
      (handleClick doc href).scrolled = none ∧ (handleClick doc href).threw = true) :=
  handleClick_spec doc href

theorem c5_witness :
    (handleClick docOne ("#main")).threw = false ∧
    (handleClick docOne ("#main")).scrolled =
      (docOne.byId (("#main").drop 1)).map (fun tgt => (tgt, true)) :=
  (c5_click_behaviour docOne ("#main")).2.1 (by decide)

/-- C5 counterexample: with href "#", the empty fragment matches no element
(the example document has no elements at all), yet instead of the claimed
silent no-op the handler throws from querySelector — "#" is not a valid
selector. -/
theorem c5_counterexample :
    docNone.byId (("#").drop 1) = none ∧
    (handleClick docNone ("#")).scrolled = none ∧
    (handleClick docNone ("#")).threw = true := by
  decide

/-- C6 (amended): No reveal-path operation fails for any data-delay value
(every string, parseable or not, yields exactly one scheduled timer), and a
click whose href is a valid ID selector never throws; but a click whose
href is not a valid CSS selector throws from querySelector, with default
navigation still prevented. -/
theorem c6_no_failure_on_valid_inputs (doc : PageDoc) (href : String)
    (st : SysState) (e : Nat) (s : String)
    (hvv : validIdSelector href = true) (hs : st.dataDelay e = some s) :
    (handleClick doc href).threw = false ∧
    (handleClick doc href).defaultPrevented = true ∧
    timersFor (handleEntry st ⟨e, true⟩) e = timersFor st e + 1 := by
  obtain ⟨h1, h2, _⟩ := handleClick_spec doc href
  refine ⟨(h2 hvv).1, h1, ?_⟩
  rw [handleEntry_some st ⟨e, true⟩ rfl s hs]
  have hcnt := filterCount_append_single st.timers
    (st.now + timeoutDelay ((jsParseInt s).map (fun d => d * 300)), e) e
  rw [show timersFor
      { st with
        timers := st.timers ++
          [(st.now + timeoutDelay ((jsParseInt s).map (fun d => d * 300)), e)],
        observed := st.observed.erase e } e =
      ((st.timers ++ [(st.now + timeoutDelay ((jsParseInt s).map (fun d => d * 300)), e)]).filter
        (fun p => decide (p.2 = e))).length from rfl]
  rw [hcnt]
  simp [timersFor]

theorem c6_witness :
    (handleClick docOne ("#main")).threw = false ∧
    (handleClick docOne ("#main")).defaultPrevented = true ∧
    timersFor (handleEntry stNan ⟨0, true⟩) 0 = timersFor stNan 0 + 1 :=
  c6_no_failure_on_valid_inputs docOne ("#main") stNan 0 ("abc") (by decide) rfl

/-- C6 counterexample: the click handler can throw. Clicking an anchor with
href "#1" — although an element with id "1" exists in the document — makes
querySelector throw a SyntaxError ("#1" is not a valid selector), so not
every input is a handled do-nothing case. -/
theorem c6_counterexample :
    docDigits.byId (("#1").drop 1) = some 5 ∧
    (handleClick docDigits ("#1")).threw = true := by
  decide

end Solace
